import Mathlib

/-!
Verification of the retail metric-derivation and segmentation pipeline
(`retail_correlation_analysis.py`).

Rows of the `retail_inventory` table are embedded as a structure; numeric
columns are modelled by exact rationals (`ℚ`).  Each derived column of the
SQL query in `load_data` and of `calculate_inventory_metrics` is a Lean
function on rows; the segment predicates of `identify_problem_areas`, the
quantile computation (pandas linear interpolation), the group-by-sum
aggregation and the `idxmax` / `idxmin` extremum selection are embedded as
executable list functions.
-/

namespace Retail

/-- A row of the `retail_inventory` table after the ingest query of
`load_data` (src/retail_correlation_analysis.py lines 50-63).  The query
filters `inventory_level > 0 AND price > 0`; those invariants are carried as
hypotheses of the theorems, not baked into the type.  Numeric columns are
exact rationals; the integer columns of the schema are naturals. -/
structure Row where
  store_id : Nat
  product_id : Nat
  category : String
  region : String
  seasonality : String
  inventory_level : Nat
  units_sold : Nat
  price : ℚ
  discount : ℚ
deriving DecidableEq, Repr

/-- `(units_sold * price) as gross_revenue` (line 56). -/
def grossRevenue (r : Row) : ℚ := (r.units_sold : ℚ) * r.price

/-- `(units_sold * price * (1 - discount / 100.0)) as net_revenue` (line 57). -/
def netRevenue (r : Row) : ℚ := (r.units_sold : ℚ) * r.price * (1 - r.discount / 100)

/-- `(inventory_level - units_sold) as overstock_units` (line 58); may be negative. -/
def overstockUnits (r : Row) : ℚ := (r.inventory_level : ℚ) - (r.units_sold : ℚ)

/-- `CASE WHEN inventory_level > 0 THEN units_sold / inventory_level ELSE 0 END
as turnover_ratio` (line 59). -/
def turnoverRatio (r : Row) : ℚ :=
  if 0 < r.inventory_level then (r.units_sold : ℚ) / (r.inventory_level : ℚ) else 0

/-- `CASE WHEN units_sold > 0 THEN (units_sold * price * (1 - discount / 100.0))
/ (units_sold * price) ELSE 0 END as profit_margin` (line 60). -/
def profitMargin (r : Row) : ℚ :=
  if 0 < r.units_sold then
    ((r.units_sold : ℚ) * r.price * (1 - r.discount / 100)) / ((r.units_sold : ℚ) * r.price)
  else 0

/-- `inventory_days = inventory_level / (units_sold + 0.1) * 30`
(`calculate_inventory_metrics`, line 87). -/
def inventoryDays (r : Row) : ℚ :=
  (r.inventory_level : ℚ) / ((r.units_sold : ℚ) + 1 / 10) * 30

/-- `profit_per_unit = net_revenue / (units_sold + 0.1)` (line 90). -/
def profitPerUnit (r : Row) : ℚ := netRevenue r / ((r.units_sold : ℚ) + 1 / 10)

/-- `efficiency_score = (turnover_ratio * profit_margin) * 100` (line 93). -/
def efficiencyScore (r : Row) : ℚ := turnoverRatio r * profitMargin r * 100

/-- The four labels of the `pd.cut` classification (lines 96-100). -/
inductive Category where
  | fastMoving
  | normal
  | slowMoving
  | deadStock
deriving DecidableEq, Repr

/-- `pd.cut(inventory_days, bins=[0, 15, 30, 60, inf], labels=[...])`
(lines 96-100).  `pd.cut` uses its default `right=True`, so the bins are
left-open right-closed intervals `(0,15]`, `(15,30]`, `(30,60]`, `(60,inf]`;
a value outside every bin (here `x ≤ 0`) gets the null category `none`. -/
def inventoryCategory (x : ℚ) : Option Category :=
  if 0 < x ∧ x ≤ 15 then some Category.fastMoving
  else if 15 < x ∧ x ≤ 30 then some Category.normal
  else if 30 < x ∧ x ≤ 60 then some Category.slowMoving
  else if 60 < x then some Category.deadStock
  else none

/-- Pandas `Series.quantile(q)` with the default linear interpolation
(`identify_problem_areas`, lines 189-190; `generate_executive_summary`,
lines 555-556).  The values are sorted ascending; with `n` values and
`h = q * (n - 1)`, the result interpolates between the entries at positions
`⌊h⌋` and `⌊h⌋ + 1`.  On an empty series pandas returns NaN, modelled as
`none`. -/
def quantileQ (q : ℚ) (xs : List ℚ) : Option ℚ :=
  if xs = [] then none
  else
    let s := xs.insertionSort (· ≤ ·)
    let h : ℚ := q * ((s.length : ℚ) - 1)
    let i : ℕ := (⌊h⌋).toNat
    let lo := s.getD i 0
    let hi := s.getD (i + 1) lo
    some (lo + (h - (i : ℚ)) * (hi - lo))

/-- Pandas semantics of `x > threshold` where the threshold may be NaN
(modelled `none`): any comparison with NaN is `False`. -/
def gtOptQ (x : ℚ) : Option ℚ → Bool
  | none => false
  | some t => decide (t < x)

/-- Pandas semantics of `x < threshold` where the threshold may be NaN
(modelled `none`): any comparison with NaN is `False`. -/
def ltOptQ (x : ℚ) : Option ℚ → Bool
  | none => false
  | some t => decide (x < t)

/-- The slow-moving filter of `identify_problem_areas` (lines 182-185):
`inventory_days > 45 AND turnover_ratio < 0.3`. -/
def isSlowMoving (r : Row) : Bool :=
  decide (45 < inventoryDays r) && decide (turnoverRatio r < 3 / 10)

/-- `slow_moving = df[(inventory_days > 45) & (turnover_ratio < 0.3)]`
(lines 182-185). -/
def slowMovingSegment (df : List Row) : List Row := df.filter isSlowMoving

/-- Membership test of the overstocked filter (lines 188-191):
`overstock_units > quantile(0.8) AND efficiency_score < quantile(0.3)`,
where both quantiles are taken over the whole current table. -/
def isOverstocked (df : List Row) (r : Row) : Bool :=
  gtOptQ (overstockUnits r) (quantileQ (8 / 10) (df.map overstockUnits)) &&
  ltOptQ (efficiencyScore r) (quantileQ (3 / 10) (df.map efficiencyScore))

/-- `overstocked = df[(overstock_units > df.overstock_units.quantile(0.8)) &
(efficiency_score < df.efficiency_score.quantile(0.3))]` (lines 188-191). -/
def overstockedSegment (df : List Row) : List Row := df.filter (isOverstocked df)

/-- The dead-stock filter of `identify_problem_areas` (lines 194-197):
`inventory_days > 90 AND units_sold <= 1`. -/
def isDeadStock (r : Row) : Bool :=
  decide (90 < inventoryDays r) && decide (r.units_sold ≤ 1)

/-- `dead_stock = df[(inventory_days > 90) & (units_sold <= 1)]`
(lines 194-197). -/
def deadStockSegment (df : List Row) : List Row := df.filter isDeadStock

/-- `clean_data = self.df[[var1, var2]].dropna()` (line 150): keep the rows
where both columns are present, pairing them. -/
def cleanPairs : List (Option ℚ × Option ℚ) → List (ℚ × ℚ)
  | [] => []
  | (some x, some y) :: rest => (x, y) :: cleanPairs rest
  | _ :: rest => cleanPairs rest

/-- The gate of `correlation_analysis` (lines 148-155): the Pearson test runs
only `if len(clean_data) > 10`.  `scipy.stats.pearsonr` itself is an external
library call; what the embedding captures is which paired, NaN-dropped sample
is handed to it (`some clean`) versus the test being skipped (`none`). -/
def significanceTest (data : List (Option ℚ × Option ℚ)) : Option (List (ℚ × ℚ)) :=
  let clean := cleanPairs data
  if 10 < clean.length then some clean else none

/-- The three relationships tested in `correlation_analysis` (lines 142-146):
`(inventory_days, profit_margin)`, `(turnover_ratio, net_revenue)`,
`(inventory_level, efficiency_score)`.  All six columns are derived and total
in the model, so every entry is present (`some`). -/
def correlationTests (df : List Row) : List (Option (List (ℚ × ℚ))) :=
  [ significanceTest (df.map fun r => (some (inventoryDays r), some (profitMargin r))),
    significanceTest (df.map fun r => (some (turnoverRatio r), some (netRevenue r))),
    significanceTest (df.map fun r => (some ((r.inventory_level : ℚ)), some (efficiencyScore r))) ]

/-- `df.groupby(key)[val].sum()` (seasonal_analysis lines 246-253,
generate_executive_summary line 549): one output row per distinct key, whose
value is the sum of `val` over the rows with that key. -/
def groupbySum {K α : Type} [DecidableEq K] (key : α → K) (val : α → ℚ)
    (df : List α) : List (K × ℚ) :=
  ((df.map key).dedup).map fun k => (k, ((df.filter fun r => key r = k).map val).sum)

/-- `df.groupby('category')['net_revenue'].sum()` as used at line 549. -/
def categoryNetRevenue (df : List Row) : List (String × ℚ) :=
  groupbySum Row.category netRevenue df

/-- The maximum of the score column of a non-empty grouped table, written with
an explicit head so the function is total. -/
def maxScore {K : Type} (p : K × ℚ) (rest : List (K × ℚ)) : ℚ :=
  rest.foldl (fun a q => max a q.2) p.2

/-- The minimum of the score column of a non-empty grouped table. -/
def minScore {K : Type} (p : K × ℚ) (rest : List (K × ℚ)) : ℚ :=
  rest.foldl (fun a q => min a q.2) p.2

/-- Left-to-right scan behind `idxmax`: the running best is replaced only on a
strict improvement, so the first occurrence of the maximum wins ties. -/
def idxmaxAux {K : Type} (best : K × ℚ) : List (K × ℚ) → K
  | [] => best.1
  | p :: rest => if best.2 < p.2 then idxmaxAux p rest else idxmaxAux best rest

/-- `Series.idxmax()` over a grouped table, as called on
`regional_performance['efficiency_score']` (line 354): index (key) of the
first occurrence of the maximum value; `none` on an empty table. -/
def idxmax {K : Type} : List (K × ℚ) → Option K
  | [] => none
  | p :: rest => some (idxmaxAux p rest)

/-- Left-to-right scan behind `idxmin`: first occurrence of the minimum wins. -/
def idxminAux {K : Type} (best : K × ℚ) : List (K × ℚ) → K
  | [] => best.1
  | p :: rest => if p.2 < best.2 then idxminAux p rest else idxminAux best rest

/-- `Series.idxmin()` over a grouped table (line 355): index (key) of the
first occurrence of the minimum value; `none` on an empty table. -/
def idxmin {K : Type} : List (K × ℚ) → Option K
  | [] => none
  | p :: rest => some (idxminAux p rest)

/-! ### Theorems -/

/-- C1 (counterexample): the classifier at `inventory_days = 15` yields
`Fast Moving`, not `Normal` as the claim states — `pd.cut` bins are
right-closed, so 15 lands in the first bin `(0, 15]`.  Likewise 30 is
`Normal` (not `Slow Moving`) and 60 is `Slow Moving` (not `Dead Stock`). -/
theorem inventoryCategory_boundary_cex :
    inventoryCategory 15 = some Category.fastMoving ∧
    inventoryCategory 15 ≠ some Category.normal ∧
    inventoryCategory 30 = some Category.normal ∧
    inventoryCategory 60 = some Category.slowMoving := by
  refine ⟨?_, ?_, ?_, ?_⟩ <;> simp [inventoryCategory] <;> norm_num

/-- C1 (amended): the classifier assigns `inventory_category` from
`inventory_days` by the right-closed bins `(0,15] → Fast Moving`,
`(15,30] → Normal`, `(30,60] → Slow Moving`, `(60,∞) → Dead Stock`; in
particular a value exactly 15 is Fast Moving, exactly 30 is Normal and
exactly 60 is Slow Moving. -/
theorem inventoryCategory_right_closed (x : ℚ) :
    (0 < x → x ≤ 15 → inventoryCategory x = some Category.fastMoving) ∧
    (15 < x → x ≤ 30 → inventoryCategory x = some Category.normal) ∧
    (30 < x → x ≤ 60 → inventoryCategory x = some Category.slowMoving) ∧
    (60 < x → inventoryCategory x = some Category.deadStock) ∧
    inventoryCategory 15 = some Category.fastMoving ∧
    inventoryCategory 30 = some Category.normal ∧
    inventoryCategory 60 = some Category.slowMoving := by
  have fast : ∀ y : ℚ, 0 < y → y ≤ 15 → inventoryCategory y = some Category.fastMoving := by
    intro y h1 h2
    simp only [inventoryCategory]
    rw [if_pos ⟨h1, h2⟩]
  have norm : ∀ y : ℚ, 15 < y → y ≤ 30 → inventoryCategory y = some Category.normal := by
    intro y h1 h2
    simp only [inventoryCategory]
    rw [if_neg (by rintro ⟨hy1, hy2⟩; linarith), if_pos ⟨h1, h2⟩]
  have slow : ∀ y : ℚ, 30 < y → y ≤ 60 → inventoryCategory y = some Category.slowMoving := by
    intro y h1 h2
    simp only [inventoryCategory]
    rw [if_neg (by rintro ⟨hy1, hy2⟩; linarith), if_neg (by rintro ⟨hy1, hy2⟩; linarith),
      if_pos ⟨h1, h2⟩]
  have dead : ∀ y : ℚ, 60 < y → inventoryCategory y = some Category.deadStock := by
    intro y h1
    simp only [inventoryCategory]
    rw [if_neg (by rintro ⟨hy1, hy2⟩; linarith), if_neg (by rintro ⟨hy1, hy2⟩; linarith),
      if_neg (by rintro ⟨hy1, hy2⟩; linarith), if_pos h1]
  exact ⟨fast x, norm x, slow x, dead x, fast 15 (by norm_num) (by norm_num),
    norm 30 (by norm_num) (by norm_num), slow 60 (by norm_num) (by norm_num)⟩

/-- C1 witness: the amended bin map applied at the concrete value 20
(inside `(15, 30]`) yields `Normal`. -/
theorem inventoryCategory_right_closed_witness :
    inventoryCategory 20 = some Category.normal :=
  (inventoryCategory_right_closed 20).2.1 (by norm_num) (by norm_num)

/-- C3: for a row with `units_sold > 0` and `price > 0`, the derived
`profit_margin` equals `1 - discount / 100`, independently of price and of
the magnitude of `units_sold`; for a row with `units_sold = 0` it is 0. -/
theorem profitMargin_eq (r : Row) :
    (0 < r.units_sold → 0 < r.price → profitMargin r = 1 - r.discount / 100) ∧
    (r.units_sold = 0 → profitMargin r = 0) := by
  constructor
  · intro hs hp
    have hprod : (r.units_sold : ℚ) * r.price ≠ 0 := by
      have : (0 : ℚ) < (r.units_sold : ℚ) := by exact_mod_cast hs
      positivity
    simp only [profitMargin, if_pos hs]
    exact mul_div_cancel_left₀ _ hprod
  · intro hz
    simp [profitMargin, hz]

/-- C3 witness: a sold row with price 50 and discount 20 has margin 4/5,
and an unsold row has margin 0. -/
theorem profitMargin_eq_witness :
    profitMargin ⟨1, 1, "A", "N", "S", 100, 10, 50, 20⟩ = 1 - 20 / 100 ∧
    profitMargin ⟨1, 1, "A", "N", "S", 100, 0, 50, 20⟩ = 0 :=
  ⟨(profitMargin_eq ⟨1, 1, "A", "N", "S", 100, 10, 50, 20⟩).1 (by norm_num) (by norm_num),
   (profitMargin_eq ⟨1, 1, "A", "N", "S", 100, 0, 50, 20⟩).2 rfl⟩

/-- C2 (counterexample): invoked on the empty table, the classifier returns
normally with empty Overstocked, Slow-Moving and Dead-Stock segments, and the
quantile computation evaluates to NaN (`none`) instead of raising any
`EmptyInputError` — pandas `Series.quantile` on an empty numeric series
returns NaN and comparisons against NaN are `False`. -/
theorem emptyTable_silent_cex :
    overstockedSegment [] = [] ∧ slowMovingSegment [] = [] ∧
    deadStockSegment [] = [] ∧ quantileQ (8 / 10) ([] : List ℚ) = none :=
  ⟨rfl, rfl, rfl, rfl⟩

/-- C2 (amended): on an empty table the quantile computation yields an
undefined threshold (NaN, modelled `none`) for every quantile level rather
than raising, and the classifier silently returns the three empty segments. -/
theorem emptyTable_silent (q : ℚ) :
    quantileQ q [] = none ∧ overstockedSegment [] = [] ∧
    slowMovingSegment [] = [] ∧ deadStockSegment [] = [] :=
  ⟨rfl, rfl, rfl, rfl⟩

/-- Dropping NaNs from two columns that are everywhere present keeps every
row, pairing the two projections. -/
theorem cleanPairs_map_some {α : Type} (f g : α → ℚ) (l : List α) :
    cleanPairs (l.map fun r => (some (f r), some (g r))) = l.map fun r => (f r, g r) := by
  induction l with
  | nil => rfl
  | cons a t ih => simp [cleanPairs, ih]

/-- On two total columns, the Pearson gate reduces to the table length. -/
theorem significanceTest_total {α : Type} (f g : α → ℚ) (l : List α) :
    (significanceTest (l.map fun r => (some (f r), some (g r)))).isSome
      = decide (10 < l.length) := by
  simp only [significanceTest, cleanPairs_map_some, List.length_map]
  split_ifs with h <;> simp [h]

/-- C4: the Pearson correlation test is performed if and only if the number
of paired, NaN-dropped observations is strictly greater than 10 (so exactly
10 paired points means the test is omitted, producing no result rather than
a zero), and this gate applies to each of the three designated variable
pairs of `correlation_analysis`. -/
theorem significanceTest_gate (data : List (Option ℚ × Option ℚ)) (df : List Row) :
    (significanceTest data).isSome = decide (10 < (cleanPairs data).length) ∧
    (correlationTests df).map Option.isSome =
      [decide (10 < df.length), decide (10 < df.length), decide (10 < df.length)] := by
  constructor
  · simp only [significanceTest]
    split_ifs with h <;> simp [h]
  · simp [correlationTests, significanceTest_total]

/-- Splitting a table by a Boolean predicate splits the sum of any numeric
column. -/
theorem sum_map_filter_split {α : Type} (p : α → Bool) (val : α → ℚ) (l : List α) :
    ((l.filter p).map val).sum + ((l.filter fun a => !(p a)).map val).sum
      = (l.map val).sum := by
  induction l with
  | nil => simp
  | cons a t ih =>
    by_cases h : p a <;>
      simp only [List.filter_cons, h, Bool.not_true, Bool.not_false, if_pos, if_neg,
        Bool.false_eq_true, not_false_eq_true, List.map_cons, List.sum_cons, ite_true,
        ite_false] <;> linarith [ih]

/-- Summing the per-key filtered sums over a duplicate-free list of keys that
covers every key of the table gives the whole-table sum. -/
theorem sum_over_keys {K α : Type} [DecidableEq K] (key : α → K) (val : α → ℚ) :
    ∀ (ks : List K), ks.Nodup → ∀ (l : List α), (∀ a ∈ l, key a ∈ ks) →
      ((ks.map fun k => ((l.filter fun a => key a = k).map val).sum)).sum
        = (l.map val).sum := by
  intro ks
  induction ks with
  | nil =>
    intro _ l hcov
    cases l with
    | nil => simp
    | cons a t => exact absurd (hcov a (List.mem_cons_self a t)) (List.not_mem_nil _)
  | cons k ks ih =>
    intro hnd l hcov
    have hnd' := List.nodup_cons.mp hnd
    have htail : ∀ k' ∈ ks, (l.filter fun a => key a = k')
        = ((l.filter fun a => !(key a = k)).filter fun a => key a = k') := by
      intro k' hk'
      have hne : k' ≠ k := fun h => hnd'.1 (h ▸ hk')
      rw [List.filter_filter]
      apply List.filter_congr
      intro a _
      by_cases h : key a = k'
      · have : ¬ key a = k := fun hk => hne (h ▸ hk ▸ rfl)
        simp [h, this, hne]
      · simp [h]
    have hcov2 : ∀ a ∈ (l.filter fun a => !(key a = k)), key a ∈ ks := by
      intro a ha
      rcases List.mem_filter.mp ha with ⟨hal, hcond⟩
      rcases List.mem_cons.mp (hcov a hal) with heq | hmem
      · exact absurd (decide_eq_true heq) (by simpa using hcond)
      · exact hmem
    have hrec := ih hnd'.2 (l.filter fun a => !(key a = k)) hcov2
    have hmap : (ks.map fun k' => ((l.filter fun a => key a = k').map val).sum)
        = ks.map fun k' =>
            (((l.filter fun a => !(key a = k)).filter fun a => key a = k').map val).sum := by
      apply List.map_congr_left
      intro k' hk'
      rw [htail k' hk']
    have hsplit := sum_map_filter_split (fun a => key a = k) val l
    simp only [List.map_cons, List.sum_cons, hmap, hrec]
    linarith [hsplit]

/-- C5: the sum over all groups of the group-by sum of a numeric value column
equals the sum of that column over the whole table, for every table, every
grouping key and every value column (partition-sum law). -/
theorem groupbySum_partition {K α : Type} [DecidableEq K] (key : α → K)
    (val : α → ℚ) (df : List α) :
    ((groupbySum key val df).map Prod.snd).sum = (df.map val).sum := by
  have h := sum_over_keys key val ((df.map key).dedup) (List.nodup_dedup _) df
    (fun a ha => List.mem_dedup.mpr (List.mem_map_of_mem key ha))
  simpa [groupbySum, List.map_map, Function.comp] using h

/-- The linear-interpolation quantile depends only on the multiset of
values: it sorts its input, and sorted lists of permuted inputs coincide. -/
theorem quantileQ_perm (q : ℚ) {xs ys : List ℚ} (h : xs.Perm ys) :
    quantileQ q xs = quantileQ q ys := by
  rcases eq_or_ne xs [] with hx | hx
  · subst hx
    rw [h.nil_eq.symm]
  · have hy : ys ≠ [] := fun hyn => hx ((hyn ▸ h).eq_nil)
    have hsort : xs.insertionSort (· ≤ ·) = ys.insertionSort (· ≤ ·) :=
      List.eq_of_perm_of_sorted
        ((List.perm_insertionSort _ xs).trans (h.trans (List.perm_insertionSort _ ys).symm))
        (List.sorted_insertionSort _ xs) (List.sorted_insertionSort _ ys)
    simp only [quantileQ, if_neg hx, if_neg hy, hsort]

/-- C6: membership of a row in the Overstocked segment is invariant under any
permutation of the table's rows, and more generally depends only on the
row's own values together with the multisets of `overstock_units` and
`efficiency_score` values of the table, since both 80th/30th-percentile
thresholds are computed from sorted copies of those columns. -/
theorem isOverstocked_perm_invariant (df df' : List Row) (r : Row) :
    (df.Perm df' → isOverstocked df r = isOverstocked df' r) ∧
    ((df.map overstockUnits).Perm (df'.map overstockUnits) →
      (df.map efficiencyScore).Perm (df'.map efficiencyScore) →
      isOverstocked df r = isOverstocked df' r) := by
  have hmain : ∀ (a b : List Row),
      (a.map overstockUnits).Perm (b.map overstockUnits) →
      (a.map efficiencyScore).Perm (b.map efficiencyScore) →
      isOverstocked a r = isOverstocked b r := by
    intro a b h1 h2
    simp only [isOverstocked, quantileQ_perm _ h1, quantileQ_perm _ h2]
  exact ⟨fun h => hmain df df' (h.map overstockUnits) (h.map efficiencyScore), hmain df df'⟩

/-- C6 witness: swapping the two rows of a concrete two-row table leaves the
overstocked-membership test of the first row unchanged. -/
theorem isOverstocked_perm_invariant_witness :
    isOverstocked
        [⟨1, 1, "A", "N", "S", 100, 2, 5, 0⟩, ⟨1, 2, "A", "N", "S", 10, 9, 5, 0⟩]
        ⟨1, 1, "A", "N", "S", 100, 2, 5, 0⟩
      = isOverstocked
        [⟨1, 2, "A", "N", "S", 10, 9, 5, 0⟩, ⟨1, 1, "A", "N", "S", 100, 2, 5, 0⟩]
        ⟨1, 1, "A", "N", "S", 100, 2, 5, 0⟩ :=
  (isOverstocked_perm_invariant
    [⟨1, 1, "A", "N", "S", 100, 2, 5, 0⟩, ⟨1, 2, "A", "N", "S", 10, 9, 5, 0⟩]
    [⟨1, 2, "A", "N", "S", 10, 9, 5, 0⟩, ⟨1, 1, "A", "N", "S", 100, 2, 5, 0⟩]
    ⟨1, 1, "A", "N", "S", 100, 2, 5, 0⟩).1
    (List.Perm.swap (⟨1, 2, "A", "N", "S", 10, 9, 5, 0⟩ : Row)
      (⟨1, 1, "A", "N", "S", 100, 2, 5, 0⟩ : Row) [])

/-- C7: for a fixed positive `inventory_level`, the derived `inventory_days`
is strictly decreasing in `units_sold`: a row selling strictly more units has
strictly fewer inventory days. -/
theorem inventoryDays_strict_anti (r r' : Row)
    (hL : r'.inventory_level = r.inventory_level) (hpos : 0 < r.inventory_level)
    (hlt : r.units_sold < r'.units_sold) :
    inventoryDays r' < inventoryDays r := by
  simp only [inventoryDays, hL]
  have h30 : (0 : ℚ) < 30 := by norm_num
  apply mul_lt_mul_of_pos_right _ h30
  apply div_lt_div_of_pos_left
  · exact_mod_cast hpos
  · positivity
  · have : (r.units_sold : ℚ) < (r'.units_sold : ℚ) := by exact_mod_cast hlt
    linarith

/-- C7 witness: at inventory level 10, selling 5 units gives strictly fewer
inventory days than selling 0 units. -/
theorem inventoryDays_strict_anti_witness :
    inventoryDays ⟨1, 1, "A", "N", "S", 10, 5, 5, 0⟩
      < inventoryDays ⟨1, 1, "A", "N", "S", 10, 0, 5, 0⟩ :=
  inventoryDays_strict_anti ⟨1, 1, "A", "N", "S", 10, 0, 5, 0⟩
    ⟨1, 1, "A", "N", "S", 10, 5, 5, 0⟩ rfl (by norm_num) (by norm_num)

/-- C9: under the ingest invariant (`inventory_level > 0`), every row of the
Dead Stock segment (`inventory_days > 90` and `units_sold ≤ 1`) also belongs
to the Slow-Moving segment (`inventory_days > 45` and
`turnover_ratio < 0.3`): with at most one unit sold, `inventory_days > 90`
forces `inventory_level ≥ 4`, hence `turnover_ratio ≤ 1/4 < 3/10`. -/
theorem deadStock_subset_slowMoving (df : List Row) (r : Row)
    (hinv : ∀ x ∈ df, 0 < x.inventory_level)
    (hmem : r ∈ deadStockSegment df) : r ∈ slowMovingSegment df := by
  rcases List.mem_filter.mp hmem with ⟨hdf, hdead⟩
  have hpos := hinv r hdf
  have hdead' : 90 < inventoryDays r ∧ r.units_sold ≤ 1 := by
    simpa [isDeadStock] using hdead
  rcases hdead' with ⟨h90, hs1⟩
  refine List.mem_filter.mpr ⟨hdf, ?_⟩
  have hslow : 45 < inventoryDays r ∧ turnoverRatio r < 3 / 10 := by
    refine ⟨by linarith, ?_⟩
    rw [turnoverRatio, if_pos hpos]
    rcases Nat.le_one_iff_eq_zero_or_eq_one.mp hs1 with hs0 | hs1'
    · rw [hs0]
      have h1 : (0 : ℚ) < (r.inventory_level : ℚ) := by exact_mod_cast hpos
      rw [Nat.cast_zero, zero_div]
      norm_num
    · have hdays : inventoryDays r = (r.inventory_level : ℚ) * (300 / 11) := by
        rw [inventoryDays, hs1']
        push_cast
        ring
      have hL4 : 4 ≤ r.inventory_level := by
        by_contra hc
        push_neg at hc
        have hle : (r.inventory_level : ℚ) ≤ 3 := by
          have : r.inventory_level ≤ 3 := by omega
          exact_mod_cast this
        rw [hdays] at h90
        linarith
      have hL : (4 : ℚ) ≤ (r.inventory_level : ℚ) := by exact_mod_cast hL4
      have hLpos : (0 : ℚ) < (r.inventory_level : ℚ) := by linarith
      rw [hs1', Nat.cast_one, div_lt_iff₀ hLpos]
      linarith
  simp [isSlowMoving, hslow.1, hslow.2]

/-- C9 witness: in a one-row table with inventory 1 and no sales, the row is
dead stock (300 inventory days) and is also in the Slow-Moving segment. -/
theorem deadStock_subset_slowMoving_witness :
    (⟨1, 1, "A", "N", "S", 1, 0, 5, 0⟩ : Row) ∈
      slowMovingSegment [⟨1, 1, "A", "N", "S", 1, 0, 5, 0⟩] :=
  deadStock_subset_slowMoving [⟨1, 1, "A", "N", "S", 1, 0, 5, 0⟩]
    ⟨1, 1, "A", "N", "S", 1, 0, 5, 0⟩ (by decide)
    (by simp only [deadStockSegment, List.filter, isDeadStock, inventoryDays]; norm_num)

/-- C10: every row delivered by the ingest query (`inventory_level > 0`) has
strictly positive `inventory_days`, so it falls inside one of the left-open
bins of the cut and receives a non-null `inventory_category` — no row is
left uncategorized despite the first bin edge being 0. -/
theorem inventoryCategory_total (r : Row) (hpos : 0 < r.inventory_level) :
    (inventoryCategory (inventoryDays r)).isSome = true := by
  have hdays : 0 < inventoryDays r := by
    have h1 : (0 : ℚ) < (r.inventory_level : ℚ) := by exact_mod_cast hpos
    have h2 : (0 : ℚ) < (r.units_sold : ℚ) + 1 / 10 := by positivity
    rw [inventoryDays]
    exact mul_pos (div_pos h1 h2) (by norm_num)
  simp only [inventoryCategory]
  split_ifs with h1 h2 h3 h4
  · rfl
  · rfl
  · rfl
  · rfl
  · exfalso
    push_neg at h1 h2 h3 h4
    have ha := h1 hdays
    have hb := h2 ha
    have hc := h3 hb
    linarith

/-- C10 witness: the classifier is non-null on a concrete delivered row. -/
theorem inventoryCategory_total_witness :
    (inventoryCategory (inventoryDays ⟨1, 1, "A", "N", "S", 7, 3, 5, 0⟩)).isSome = true :=
  inventoryCategory_total ⟨1, 1, "A", "N", "S", 7, 3, 5, 0⟩ (by norm_num)

/-- A fold of `max` over the scores only grows its accumulator. -/
theorem le_foldl_max {K : Type} (l : List (K × ℚ)) : ∀ a : ℚ,
    a ≤ l.foldl (fun x q => max x q.2) a := by
  induction l with
  | nil => intro a; simp
  | cons q t ih =>
    intro a
    simp only [List.foldl_cons]
    exact le_trans (le_max_left a q.2) (ih (max a q.2))

/-- A fold of `min` over the scores only shrinks its accumulator. -/
theorem foldl_min_le {K : Type} (l : List (K × ℚ)) : ∀ a : ℚ,
    l.foldl (fun x q => min x q.2) a ≤ a := by
  induction l with
  | nil => intro a; simp
  | cons q t ih =>
    intro a
    simp only [List.foldl_cons]
    exact le_trans (ih (min a q.2)) (min_le_left a q.2)

/-- The left-to-right `idxmax` scan returns the key of the first entry whose
score attains the maximum. -/
theorem idxmaxAux_find {K : Type} (rest : List (K × ℚ)) : ∀ p : K × ℚ,
    some (idxmaxAux p rest)
      = ((p :: rest).find? fun g => decide (maxScore p rest ≤ g.2)).map Prod.fst := by
  induction rest with
  | nil =>
    intro p
    simp [idxmaxAux, maxScore, List.find?]
  | cons q t ih =>
    intro p
    by_cases h : p.2 < q.2
    · have hM : maxScore p (q :: t) = maxScore q t := by
        simp only [maxScore, List.foldl_cons]
        rw [max_eq_right (le_of_lt h)]
      have hqM : q.2 ≤ maxScore q t := le_foldl_max t q.2
      have haux : idxmaxAux p (q :: t) = idxmaxAux q t := by
        simp [idxmaxAux, h]
      have hnotp : ¬ (maxScore p (q :: t) ≤ p.2) := by rw [hM]; push_neg; linarith
      rw [haux, List.find?_cons_of_neg _ (by simpa using hnotp), hM]
      exact ih q
    · push_neg at h
      have hM : maxScore p (q :: t) = maxScore p t := by
        simp only [maxScore, List.foldl_cons]
        rw [max_eq_left h]
      have haux : idxmaxAux p (q :: t) = idxmaxAux p t := by
        simp [idxmaxAux, not_lt.mpr h]
      rw [haux, hM, ih p]
      by_cases hp : maxScore p t ≤ p.2
      · rw [List.find?_cons_of_pos _ (by simpa using hp),
          List.find?_cons_of_pos _ (by simpa using hp)]
      · have hq : ¬ (maxScore p t ≤ q.2) := by push_neg at hp ⊢; linarith
        rw [List.find?_cons_of_neg _ (by simpa using hp),
          List.find?_cons_of_neg _ (by simpa using hp),
          List.find?_cons_of_neg _ (by simpa using hq)]

/-- The left-to-right `idxmin` scan returns the key of the first entry whose
score attains the minimum. -/
theorem idxminAux_find {K : Type} (rest : List (K × ℚ)) : ∀ p : K × ℚ,
    some (idxminAux p rest)
      = ((p :: rest).find? fun g => decide (g.2 ≤ minScore p rest)).map Prod.fst := by
  induction rest with
  | nil =>
    intro p
    simp [idxminAux, minScore, List.find?]
  | cons q t ih =>
    intro p
    by_cases h : q.2 < p.2
    · have hM : minScore p (q :: t) = minScore q t := by
        simp only [minScore, List.foldl_cons]
        rw [min_eq_right (le_of_lt h)]
      have hqM : minScore q t ≤ q.2 := foldl_min_le t q.2
      have haux : idxminAux p (q :: t) = idxminAux q t := by
        simp [idxminAux, h]
      have hnotp : ¬ (p.2 ≤ minScore p (q :: t)) := by rw [hM]; push_neg; linarith
      rw [haux, List.find?_cons_of_neg _ (by simpa using hnotp), hM]
      exact ih q
    · push_neg at h
      have hM : minScore p (q :: t) = minScore p t := by
        simp only [minScore, List.foldl_cons]
        rw [min_eq_left h]
      have haux : idxminAux p (q :: t) = idxminAux p t := by
        simp [idxminAux, not_lt.mpr h]
      rw [haux, hM, ih p]
      by_cases hp : p.2 ≤ minScore p t
      · rw [List.find?_cons_of_pos _ (by simpa using hp),
          List.find?_cons_of_pos _ (by simpa using hp)]
      · have hq : ¬ (q.2 ≤ minScore p t) := by push_neg at hp ⊢; linarith
        rw [List.find?_cons_of_neg _ (by simpa using hp),
          List.find?_cons_of_neg _ (by simpa using hp),
          List.find?_cons_of_neg _ (by simpa using hq)]

/-- C8: extremum selection over a non-empty grouped table returns, for the
maximum and for the minimum alike, the key of the FIRST entry (in the grouped
table's order) whose score attains that extreme value — `find?` stops at the
first match, so when two or more groups share the identical extreme score the
group appearing first wins, consistently for `idxmax` and `idxmin`. -/
theorem extremum_first_tie {K : Type} (p : K × ℚ) (rest : List (K × ℚ)) :
    idxmax (p :: rest)
      = ((p :: rest).find? fun g => decide (maxScore p rest ≤ g.2)).map Prod.fst ∧
    idxmin (p :: rest)
      = ((p :: rest).find? fun g => decide (g.2 ≤ minScore p rest)).map Prod.fst :=
  ⟨idxmaxAux_find rest p, idxminAux_find rest p⟩

end Retail
